import Mathlib

/-!
Verification development for the kriging-based interference power constraint
simulation (`src/main.py` plus the `kriging` helper module it imports).

The numeric code is embedded over `ℝ`.  Random draws (sample locations, the
correlated shadowing vector, the secondary-link shadowing draw) and the
`scipy.special.erfinv` library call are modelled as explicit inputs of the
embedded functions.  The `kriging` module itself (`distance`, `pathloss`,
`gen_emprical_semivar`, `fit_semivar`, `gen_mat_for_kriging`,
`ordinary_kriging`) is repository code that is not present under `src/`; those
definitions are modelled from the specification, as marked in their doc
comments.
-/

namespace KrigingSim

open scoped Classical
open Matrix

noncomputable section

/-! ### Configuration constants of `src/main.py` (lines 48-63) -/

/-- Radius of the measurement circle, metres (`R_MEASURE`, line 48). -/
def R_MEASURE : ℝ := 100.0

/-- Correlation distance, metres (`DCOR`, line 49). -/
def DCOR : ℝ := 20.0

/-- Shadowing standard deviation for the primary user, dB (`STDEV_PU`, line 50). -/
def STDEV_PU : ℝ := 8.0

/-- Shadowing standard deviation for the secondary user, dB (`STDEV_SU`, line 51). -/
def STDEV_SU : ℝ := STDEV_PU

/-- Transmission power, dBm (`PTX`, line 56). -/
def PTX : ℝ := 30.0

/-- Path loss index (`ETA`, line 57). -/
def ETA : ℝ := 3.5

/-- x coordinate of the target primary receiver (`RX_X`, line 58). -/
def RX_X : ℝ := R_MEASURE

/-- y coordinate of the target primary receiver (`RX_Y`, line 59). -/
def RX_Y : ℝ := R_MEASURE

/-- Maximum distance in semivariogram modeling (`D_MAX`, line 62). -/
def D_MAX : ℝ := 2.0 * R_MEASURE

/-- Number of semivariogram averaging bins (`N_SEMIVAR`, line 63). -/
def N_SEMIVAR : ℕ := 20

/-! ### Error taxonomy (spec section 7)

The specification introduces four error classes for the pipeline.  Fallible
stages are embedded with `Except KrigingError`. -/

/-- The specification's error taxonomy (section 7). -/
inductive KrigingError where
  | insufficientData
  | fitConvergence
  | singularSystem
  | invalidProbability
  deriving DecidableEq

/-! ### The interference-constrained power rule (`dosim`, lines 93-96) -/

/-- Embedding of line 93 of `src/main.py`:
`imax_avg = prx_est - sir_d_db + np.sqrt(2.0 * (kvar + STDEV_SU**2)) * scipy.special.erfinv(2.0 * pout - 1.0)`,
with the shadowing standard deviation generalised to the parameter `stdev_su`
(the code instantiates it with the configuration constant `STDEV_SU`) and the
`scipy.special.erfinv` library call passed in as the function `erfinv`. -/
def imax_avg (erfinv : ℝ → ℝ) (prx_est sir_d_db pout kvar stdev_su : ℝ) : ℝ :=
  prx_est - sir_d_db + Real.sqrt (2.0 * (kvar + stdev_su ^ 2)) * erfinv (2.0 * pout - 1.0)

/-- Embedding of line 96 of `src/main.py`: `pmax_est = imax_avg + l_su`, where
`l_su` is the (deterministic) path loss from the secondary transmitter to the
target receiver computed on lines 94-95. -/
def pmax_est (erfinv : ℝ → ℝ) (prx_est sir_d_db pout kvar stdev_su l_su : ℝ) : ℝ :=
  imax_avg erfinv prx_est sir_d_db pout kvar stdev_su + l_su

/-- The interference bound exactly as the specification words it (section 4.4):
the kriged primary-signal estimate minus the SIR threshold, inflated by the
Gaussian quantile term `sqrt(2·(kriging_variance + shadow_variance)) ·
erfinv(2·p_out − 1)`. -/
def specInterferenceBound (erfinv : ℝ → ℝ)
    (estimate sirThreshold pout krigingVariance shadowStd : ℝ) : ℝ :=
  estimate - sirThreshold +
    Real.sqrt (2 * (krigingVariance + shadowStd ^ 2)) * erfinv (2 * pout - 1)

/-- Error-aware embedding of the power rule of lines 93-96 of `src/main.py`.
The code performs no validation of `pout` whatsoever: `scipy.special.erfinv`
raises nothing (it returns `-inf` at `-1`, `+inf` at `1` and `NaN` outside
`[-1, 1]`), so the rule unconditionally returns its pair of power values. -/
def power_rule (erfinv : ℝ → ℝ) (prx_est sir_d_db pout kvar stdev_su l_su : ℝ) :
    Except KrigingError (ℝ × ℝ) :=
  Except.ok (imax_avg erfinv prx_est sir_d_db pout kvar stdev_su,
             pmax_est erfinv prx_est sir_d_db pout kvar stdev_su l_su)

/-- Return tuple of `dosim` (line 100 of `src/main.py`). -/
structure DosimResult where
  sir : ℝ
  kvar : ℝ
  err : ℝ
  pmax : ℝ

/-- Embedding of the deterministic tail of `dosim` (lines 90-100 of
`src/main.py`).  `prx_est` and `kvar` are the ordinary-kriging outputs of line
88, `prx_true` is the true received power `prx[n]` at the evaluation location,
`l_su` is the secondary path loss of lines 94-95, and `z` is the draw
`np.random.normal(0.0, STDEV_SU)` of line 98. -/
def dosim (erfinv : ℝ → ℝ) (sir_d_db pout prx_est kvar prx_true l_su z : ℝ) :
    DosimResult :=
  { sir := prx_true - (pmax_est erfinv prx_est sir_d_db pout kvar STDEV_SU l_su - l_su + z)
    kvar := kvar
    err := prx_est - prx_true
    pmax := pmax_est erfinv prx_est sir_d_db pout kvar STDEV_SU l_su }

/-! ### The Monte-Carlo harness (`__main__`, lines 102-124) -/

/-- One iteration of the accumulation loop of lines 113-118 of `src/main.py`:
the accumulator is `(cnt_outage, kstdev_avg, rmse, psu_avg)` and `r` is the
trial's `dosim` result. -/
def harnessStep (sir_d_db : ℝ) (a : ℕ × ℝ × ℝ × ℝ) (r : DosimResult) :
    ℕ × ℝ × ℝ × ℝ :=
  (a.1 + (if r.sir < sir_d_db then 1 else 0),
   a.2.1 + Real.sqrt r.kvar,
   a.2.2.1 + r.err ^ 2,
   a.2.2.2 + (10.0 : ℝ) ^ ((0.1 : ℝ) * r.pmax))

/-- The accumulation loop of lines 108-118 of `src/main.py` over the list of
per-trial `dosim` results. -/
def harnessFold (sir_d_db : ℝ) (rs : List DosimResult) : ℕ × ℝ × ℝ × ℝ :=
  rs.foldl (harnessStep sir_d_db) (0, 0, 0, 0)

/-- The four statistics reported on lines 119-124 of `src/main.py`:
empirical outage probability, average kriging standard deviation, RMSE, and
average secondary transmission power `10.0*np.log10(psu_avg / loop)`. -/
def harnessStats (sir_d_db : ℝ) (rs : List DosimResult) : ℝ × ℝ × ℝ × ℝ :=
  let a := harnessFold sir_d_db rs
  ((a.1 : ℝ) / rs.length,
   a.2.1 / rs.length,
   Real.sqrt (a.2.2.1 / rs.length),
   10.0 * Real.logb 10 (a.2.2.2 / rs.length))

/-- The naive arithmetic mean of the per-trial transmit powers in decibels —
what the harness does NOT report. -/
def meanDb (rs : List DosimResult) : ℝ :=
  (rs.map (fun r => r.pmax)).sum / rs.length

/-! ### The kriging module (absent from src/): semivariogram estimation

`src/main.py` does `from kriging import *`; the module itself is repository
code that is not under `src/`.  Everything below marked "Modelled from the
spec" reconstructs the missing functions from the specification's words. -/

/-- Modelled from the spec: the `distance` helper of the `kriging` module
(absent from src/) — planar Euclidean distance (section 3, "Pair Distance"). -/
def distance (x1 y1 x2 y2 : ℝ) : ℝ := Real.sqrt ((x1 - x2) ^ 2 + (y1 - y2) ^ 2)

/-- Modelled from the spec: the parametric semivariogram model fitted by the
`kriging` module (absent from src/).  Section 4.2 sanctions "an exponential or
spherical model form"; the exponential family is used here.  It satisfies the
section 3 contract: `γ(0) = nugget`, monotone non-decreasing, and
`γ(h) → nugget + sill` as `h → ∞`. -/
def semivar_exp (nug sill ran h : ℝ) : ℝ :=
  nug + sill * (1 - Real.exp (-h / ran))

/-- Modelled from the spec: pairwise covariance `C(h) = (nugget+sill) − γ(h)`
(section 3, "Kriging Linear System"; section 4.3 step 1). -/
def covOf (nug sill ran h : ℝ) : ℝ := nug + sill - semivar_exp nug sill ran h

/-- Modelled from the spec (section 4.1): the set of unordered pairs of
distinct samples whose distance falls in bin `k` of the `nb` equal-width bins
partitioning `[0, dmax]` (the last bin also receives the right endpoint). -/
def semivarPairs (n : ℕ) (x y : Fin n → ℝ) (dmax : ℝ) (nb k : ℕ) :
    Finset (Fin n × Fin n) :=
  Finset.univ.filter fun q =>
    q.1 < q.2 ∧
    (k : ℝ) * (dmax / nb) ≤ distance (x q.1) (y q.1) (x q.2) (y q.2) ∧
    (distance (x q.1) (y q.1) (x q.2) (y q.2) < ((k : ℝ) + 1) * (dmax / nb) ∨
      (k + 1 = nb ∧ distance (x q.1) (y q.1) (x q.2) (y q.2) = dmax))

/-- Modelled from the spec (section 4.1): bin `k`'s semivariance — the average
of `0.5·(v_i − v_j)²` over the pairs assigned to the bin. -/
def semivarBinValue (n : ℕ) (x y v : Fin n → ℝ) (dmax : ℝ) (nb k : ℕ) : ℝ :=
  (∑ q ∈ semivarPairs n x y dmax nb k, (0.5 : ℝ) * (v q.1 - v q.2) ^ 2)
    / (semivarPairs n x y dmax nb k).card

/-- Modelled from the spec (section 4.1): the empirical semivariogram — one
`(lag, semivariance)` point per non-empty bin (the lag being the bin centre);
bins with zero pairs are dropped, never filled with a default. -/
def gen_emprical_semivar_points (n : ℕ) (x y v : Fin n → ℝ) (dmax : ℝ)
    (nb : ℕ) : List (ℝ × ℝ) :=
  ((List.range nb).filter fun k => (semivarPairs n x y dmax nb k).card ≠ 0).map
    fun k : ℕ =>
      (((k : ℝ) + 0.5) * (dmax / nb), semivarBinValue n x y v dmax nb k)

/-- Modelled from the spec: `gen_emprical_semivar` of the `kriging` module
(absent from src/), with the error behaviour of sections 4.1 and 7: fewer than
2 samples fails with `InsufficientDataError`. -/
def gen_emprical_semivar (n : ℕ) (x y v : Fin n → ℝ) (dmax : ℝ) (nb : ℕ) :
    Except KrigingError (List (ℝ × ℝ)) :=
  if n < 2 then Except.error KrigingError.insufficientData
  else Except.ok (gen_emprical_semivar_points n x y v dmax nb)

/-- Sum of squared residuals of the model curve against the empirical
semivariogram points (section 4.2's least-squares objective). -/
def ssr (pts : List (ℝ × ℝ)) (nug sill ran : ℝ) : ℝ :=
  (pts.map fun q => (q.2 - semivar_exp nug sill ran q.1) ^ 2).sum

/-- Modelled from the spec: the contract of `fit_semivar` of the `kriging`
module (absent from src/) — section 4.2: the fitted parameters are feasible
(`nugget ≥ 0`, `sill ≥ 0`, `range > 0`) and minimize the sum of squared
residuals among all feasible parameters. -/
def IsFitSemivarResult (pts : List (ℝ × ℝ)) (nug sill ran : ℝ) : Prop :=
  0 ≤ nug ∧ 0 ≤ sill ∧ 0 < ran ∧
  ∀ nug' sill' ran', 0 ≤ nug' → 0 ≤ sill' → 0 < ran' →
    ssr pts nug sill ran ≤ ssr pts nug' sill' ran'

/-! ### The kriging module (absent from src/): ordinary kriging -/

/-- Modelled from the spec: `gen_mat_for_kriging` of the `kriging` module
(absent from src/) — section 4.3 step 1: the `(n+1)×(n+1)` bordered covariance
matrix: entry `(i,j)` for `i,j < n` is `C(h(sample_i, sample_j))`, the last
row and column are ones (the unbiasedness border), and the corner is 0. -/
def gen_mat_for_kriging (n : ℕ) (x y : Fin n → ℝ) (nug sill ran : ℝ) :
    Matrix (Fin (n + 1)) (Fin (n + 1)) ℝ :=
  Matrix.of fun i j =>
    if hi : i = Fin.last n then (if j = Fin.last n then 0 else 1)
    else if hj : j = Fin.last n then 1
    else covOf nug sill ran
        (distance (x (i.castPred hi)) (y (i.castPred hi))
          (x (j.castPred hj)) (y (j.castPred hj)))

/-- Modelled from the spec: section 4.3 step 2 — the right-hand vector:
`C(h(query, sample_i))` for each sample, then `1`. -/
def kriging_rhs (n : ℕ) (x y : Fin n → ℝ) (nug sill ran xq yq : ℝ) :
    Fin (n + 1) → ℝ :=
  fun i =>
    if hi : i = Fin.last n then 1
    else covOf nug sill ran
        (distance (x (i.castPred hi)) (y (i.castPred hi)) xq yq)

/-- Modelled from the spec: section 4.3 step 3 — the weight vector solving
`M w = b` (its last entry is the Lagrange multiplier `μ`).  For a non-singular
system, `M⁻¹ *ᵥ b` is exactly the unique solution that the code's linear
solver returns. -/
def kriging_weights (n : ℕ) (x y : Fin n → ℝ) (nug sill ran xq yq : ℝ) :
    Fin (n + 1) → ℝ :=
  (gen_mat_for_kriging n x y nug sill ran)⁻¹ *ᵥ
    kriging_rhs n x y nug sill ran xq yq

/-- Modelled from the spec: `ordinary_kriging` of the `kriging` module (absent
from src/) — section 4.3 steps 4-5: the estimate `Σ w_i·value_i` over the
first `n` weights, and the variance
`(nugget+sill) − Σ w_i·C(h(query,sample_i)) − μ`. -/
def ordinary_kriging (n : ℕ) (x y v : Fin n → ℝ) (xq yq nug sill ran : ℝ) :
    ℝ × ℝ :=
  (∑ i : Fin n, kriging_weights n x y nug sill ran xq yq i.castSucc * v i,
   nug + sill
     - ∑ i : Fin n, kriging_weights n x y nug sill ran xq yq i.castSucc
         * kriging_rhs n x y nug sill ran xq yq i.castSucc
     - kriging_weights n x y nug sill ran xq yq (Fin.last n))

/-- The `(n+1)×(n+1)` covariance matrix of the sample values together with the
query value: the sample block and the sample-to-query column repeat the
kriging system's covariances, and the query's own variance is the total
variance `nugget + sill` used by section 4.3 step 5.  Positive
semidefiniteness of its quadratic form is what "valid input" means for the
covariance model at a given sample/query configuration. -/
def extendedCov (n : ℕ) (x y : Fin n → ℝ) (nug sill ran xq yq : ℝ) :
    Matrix (Fin (n + 1)) (Fin (n + 1)) ℝ :=
  Matrix.of fun i j =>
    if i = Fin.last n then
      (if j = Fin.last n then nug + sill
       else kriging_rhs n x y nug sill ran xq yq j)
    else if j = Fin.last n then kriging_rhs n x y nug sill ran xq yq i
    else gen_mat_for_kriging n x y nug sill ran i j

/-- The quadratic form `uᵀ K u` of a square matrix. -/
def quadForm (n : ℕ) (K : Matrix (Fin n) (Fin n) ℝ) (u : Fin n → ℝ) : ℝ :=
  ∑ i, ∑ j, K i j * u i * u j

/-! ### Concrete fixtures used by witnesses and counterexamples -/

/-- A one-sample location array: the single sample sits at the origin. -/
def zeroFin1 : Fin 1 → ℝ := fun _ => 0

/-- A one-sample value array: the single sample has value 5 dBm. -/
def valFin1 : Fin 1 → ℝ := fun _ => 5

/-- A two-sample all-zero array for the semivariogram estimator fixtures. -/
def zeroFin2 : Fin 2 → ℝ := fun _ => 0

/-- A concrete empirical semivariogram that the all-zero model fits exactly. -/
def pts3 : List (ℝ × ℝ) := [(1, 0), (2, 0), (3, 0)]

end

/-! ### Claim C1: the power-rule formula -/

/-- C1: for every kriging estimate, kriging variance, target outage probability
`pout ∈ (0,1)`, SIR threshold, secondary shadowing standard deviation and
interferer-to-receiver path loss, the power rule computes the maximum tolerable
average interference as the spec's formula
`estimate − sir + sqrt(2·(kvar + stdev²))·erfinv(2·pout − 1)`, and the
transmit power as that interference bound plus the path loss. -/
theorem power_rule_matches_spec_formula (erfinv : ℝ → ℝ)
    (prx_est sir_d_db pout kvar stdev_su l_su : ℝ)
    (hp : 0 < pout ∧ pout < 1) :
    imax_avg erfinv prx_est sir_d_db pout kvar stdev_su
        = specInterferenceBound erfinv prx_est sir_d_db pout kvar stdev_su ∧
    pmax_est erfinv prx_est sir_d_db pout kvar stdev_su l_su
        = imax_avg erfinv prx_est sir_d_db pout kvar stdev_su + l_su := by
  refine ⟨?_, rfl⟩
  unfold imax_avg specInterferenceBound
  norm_num

/-- Witness for C1 at a concrete input. -/
theorem power_rule_matches_spec_formula_witness :
    (0 < (1/2 : ℝ) ∧ (1/2 : ℝ) < 1) ∧
    (imax_avg (fun _ => 0) 1 2 (1/2) 3 4
        = specInterferenceBound (fun _ => 0) 1 2 (1/2) 3 4 ∧
      pmax_est (fun _ => 0) 1 2 (1/2) 3 4 6
        = imax_avg (fun _ => 0) 1 2 (1/2) 3 4 + 6) :=
  ⟨by norm_num,
   power_rule_matches_spec_formula (fun _ => 0) 1 2 (1/2) 3 4 6 (by norm_num)⟩

/-! ### Claim C5: behaviour at the boundary outage probabilities -/

/-- Counterexample to C5 as stated: at `pout = 0` the power rule of
`src/main.py` does not fail with `InvalidProbabilityError`; it returns the pair
of power values computed from `erfinv(-1)` (here with the library call
instantiated by an arbitrary total function, reflecting that `scipy` raises
nothing).  With `erfinv = fun _ => 0`, estimate `5`, variance `4`, threshold
`10`, shadowing `8`, path loss `60`, it returns `ok (-5, 55)`. -/
theorem power_rule_returns_value_at_zero :
    power_rule (fun _ => 0) 5 10 0 4 8 60
        ≠ Except.error KrigingError.invalidProbability ∧
    power_rule (fun _ => 0) 5 10 0 4 8 60 = Except.ok (-5, 55) := by
  constructor
  · intro h
    exact Except.noConfusion h
  · unfold power_rule pmax_est imax_avg
    norm_num

/-- C5 (amended): for `pout = 0` or `pout = 1` the code performs no validation
at all — the power rule of lines 93-96 always returns a power value (computed
through `erfinv` evaluated at the endpoint `±1`, where scipy yields `∓∞`), and
never an `InvalidProbabilityError`. -/
theorem power_rule_no_validation (erfinv : ℝ → ℝ)
    (prx_est sir_d_db pout kvar stdev_su l_su : ℝ)
    (hp : pout = 0 ∨ pout = 1) :
    power_rule erfinv prx_est sir_d_db pout kvar stdev_su l_su
      = Except.ok (imax_avg erfinv prx_est sir_d_db pout kvar stdev_su,
                   pmax_est erfinv prx_est sir_d_db pout kvar stdev_su l_su) := rfl

/-- Witness for C5's amended theorem at `pout = 0`. -/
theorem power_rule_no_validation_witness :
    ((0 : ℝ) = 0 ∨ (0 : ℝ) = 1) ∧
    power_rule (fun _ => 0) 5 10 0 4 8 60
      = Except.ok (imax_avg (fun _ => 0) 5 10 0 4 8,
                   pmax_est (fun _ => 0) 5 10 0 4 8 60) :=
  ⟨Or.inl rfl, power_rule_no_validation (fun _ => 0) 5 10 0 4 8 60 (Or.inl rfl)⟩

/-- The fold of lines 113-118 computes, component-wise: the count of outage
trials, the sum of kriging standard deviations, the sum of squared errors, and
the sum of linear-scale transmit powers. -/
theorem harnessFold_eq (sir_d_db : ℝ) (rs : List DosimResult) :
    harnessFold sir_d_db rs =
      (rs.countP (fun r => decide (r.sir < sir_d_db)),
       (rs.map (fun r => Real.sqrt r.kvar)).sum,
       (rs.map (fun r => r.err ^ 2)).sum,
       (rs.map (fun r => (10.0 : ℝ) ^ ((0.1 : ℝ) * r.pmax))).sum) := by
  have aux : ∀ (l : List DosimResult) (a : ℕ × ℝ × ℝ × ℝ),
      l.foldl (harnessStep sir_d_db) a =
        (a.1 + l.countP (fun r => decide (r.sir < sir_d_db)),
         a.2.1 + (l.map (fun r => Real.sqrt r.kvar)).sum,
         a.2.2.1 + (l.map (fun r => r.err ^ 2)).sum,
         a.2.2.2 + (l.map (fun r => (10.0 : ℝ) ^ ((0.1 : ℝ) * r.pmax))).sum) := by
    intro l
    induction l with
    | nil => intro a; simp
    | cons r l ih =>
        intro a
        rw [List.foldl_cons, ih]
        by_cases h : r.sir < sir_d_db <;>
          simp [harnessStep, List.countP_cons, h, Prod.ext_iff] <;>
          and_intros <;>
          first
            | omega
            | ring
  rw [harnessFold, aux]
  simp

/-! ### Claim C6: the empirical outage probability -/

/-- C6: the empirical outage probability reported by the harness equals the
number of trials whose realized SIR falls below the target SIR threshold
divided by the total trial count, and this value always lies in `[0, 1]`. -/
theorem outage_probability_count_and_bounds (sir_d_db : ℝ) (rs : List DosimResult) :
    (harnessStats sir_d_db rs).1
        = (rs.countP (fun r => decide (r.sir < sir_d_db)) : ℝ) / rs.length ∧
    0 ≤ (harnessStats sir_d_db rs).1 ∧ (harnessStats sir_d_db rs).1 ≤ 1 := by
  have h1 : (harnessStats sir_d_db rs).1
      = (rs.countP (fun r => decide (r.sir < sir_d_db)) : ℝ) / rs.length := by
    rw [harnessStats, harnessFold_eq]
  refine ⟨h1, ?_, ?_⟩
  · rw [h1]
    positivity
  · rw [h1]
    apply div_le_one_of_le₀
    · exact_mod_cast List.countP_le_length _
    · positivity

/-! ### Claim C4: average transmit power is computed in the linear domain -/

/-- C4: the harness reports average secondary transmit power by accumulating
the linear-scale power `10^(P_i/10)` of each trial, dividing by the trial
count, and converting back with `10·log10` of the linear mean — not by
averaging the decibel values directly. -/
theorem average_power_linear_domain (sir_d_db : ℝ) (rs : List DosimResult) :
    (harnessStats sir_d_db rs).2.2.2
      = 10 * Real.logb 10
          (((rs.map (fun r => (10 : ℝ) ^ (r.pmax / 10))).sum) / rs.length) := by
  rw [harnessStats, harnessFold_eq]
  have hfun : (fun r : DosimResult => (10.0 : ℝ) ^ ((0.1 : ℝ) * r.pmax))
      = fun r : DosimResult => (10 : ℝ) ^ (r.pmax / 10) := by
    funext r
    norm_num
    ring_nf
  rw [hfun]
  norm_num

/-! ### Claim C8: Jensen's inequality between the two averaging schemes -/

/-- Helper: a mapped list sum as a sum over the index type `Fin`. -/
theorem list_map_sum_eq_fin_sum (l : List DosimResult) (f : DosimResult → ℝ) :
    (l.map f).sum = ∑ i : Fin l.length, f (l.get i) := by
  conv_lhs => rw [← List.ofFn_get l]
  rw [List.map_ofFn, List.sum_ofFn]
  simp [Function.comp]

/-- C8: whenever two trials have different transmit powers `P_i` (in dB), the
harness's linear-domain average `10·log10(mean(10^(P_i/10)))` is strictly
different from, and at least as large as, the arithmetic mean of the `P_i` in
decibels (Jensen's inequality for the convex exponential). -/
theorem linear_average_exceeds_db_average (sir_d_db : ℝ) (rs : List DosimResult)
    (r₁ r₂ : DosimResult) (h₁ : r₁ ∈ rs) (h₂ : r₂ ∈ rs)
    (hne : r₁.pmax ≠ r₂.pmax) :
    (harnessStats sir_d_db rs).2.2.2 ≠ meanDb rs ∧
    meanDb rs ≤ (harnessStats sir_d_db rs).2.2.2 := by
  have hn0 : 0 < rs.length := List.length_pos.mpr (List.ne_nil_of_mem h₁)
  have hnR : (0 : ℝ) < rs.length := by exact_mod_cast hn0
  have hlog10 : 0 < Real.log 10 := Real.log_pos (by norm_num)
  set c : ℝ := Real.log 10 / 10 with hc
  have hcpos : 0 < c := by positivity
  set p : Fin rs.length → ℝ := fun i => (rs.get i).pmax with hp
  -- the accumulated linear-scale sum is a sum of exponentials
  have hsum : (rs.map (fun r => (10.0 : ℝ) ^ ((0.1 : ℝ) * r.pmax))).sum
      = ∑ i : Fin rs.length, Real.exp (c * p i) := by
    rw [list_map_sum_eq_fin_sum]
    refine Finset.sum_congr rfl fun i _ => ?_
    rw [show (10.0 : ℝ) = 10 by norm_num,
      Real.rpow_def_of_pos (by norm_num : (0 : ℝ) < 10)]
    congr 1
    rw [hc, show (0.1 : ℝ) = 1 / 10 by norm_num]
    ring
  -- the dB-domain mean as a Fin sum
  have hmean : meanDb rs = (∑ i : Fin rs.length, p i) / rs.length := by
    rw [meanDb, list_map_sum_eq_fin_sum]
  -- strict Jensen for the exponential
  have hjensen : Real.exp (∑ i : Fin rs.length, ((rs.length : ℝ)⁻¹) • (c * p i))
      < ∑ i : Fin rs.length, ((rs.length : ℝ)⁻¹) • Real.exp (c * p i) := by
    obtain ⟨i₁, hi₁⟩ := List.get_of_mem h₁
    obtain ⟨i₂, hi₂⟩ := List.get_of_mem h₂
    refine strictConvexOn_exp.map_sum_lt (fun i _ => by positivity) ?_
      (fun i _ => Set.mem_univ _) ?_
    · rw [Finset.sum_const, Finset.card_univ, Fintype.card_fin, nsmul_eq_mul]
      field_simp
    · refine ⟨i₁, Finset.mem_univ _, i₂, Finset.mem_univ _, fun hcc => hne ?_⟩
      have h' : (rs.get i₁).pmax = (rs.get i₂).pmax :=
        mul_left_cancel₀ hcpos.ne' hcc
      rw [hi₁, hi₂] at h'
      exact h'
  -- rewrite both Jensen sides
  have hjensen' : Real.exp (c * meanDb rs)
      < (∑ i : Fin rs.length, Real.exp (c * p i)) / rs.length := by
    have hl : ∑ i : Fin rs.length, ((rs.length : ℝ)⁻¹) • (c * p i)
        = c * meanDb rs := by
      simp only [smul_eq_mul]
      rw [← Finset.mul_sum, hmean]
      field_simp
      rw [Finset.mul_sum]
    have hr : ∑ i : Fin rs.length, ((rs.length : ℝ)⁻¹) • Real.exp (c * p i)
        = (∑ i : Fin rs.length, Real.exp (c * p i)) / rs.length := by
      simp only [smul_eq_mul]
      rw [← Finset.mul_sum]
      ring
    rw [hl, hr] at hjensen
    exact hjensen
  -- pass to the reported statistic through the strictly monotone 10·log10
  have hstats : (harnessStats sir_d_db rs).2.2.2
      = 10.0 * Real.logb 10
          ((∑ i : Fin rs.length, Real.exp (c * p i)) / rs.length) := by
    rw [harnessStats, harnessFold_eq, hsum]
  have hmain : meanDb rs < (harnessStats sir_d_db rs).2.2.2 := by
    rw [hstats]
    have hlt : Real.logb 10 (Real.exp (c * meanDb rs))
        < Real.logb 10 ((∑ i : Fin rs.length, Real.exp (c * p i)) / rs.length) :=
      Real.logb_lt_logb (by norm_num) (Real.exp_pos _) hjensen'
    have hval : (10.0 : ℝ) * Real.logb 10 (Real.exp (c * meanDb rs)) = meanDb rs := by
      rw [Real.logb, Real.log_exp, hc]
      field_simp
      ring
    calc meanDb rs = 10.0 * Real.logb 10 (Real.exp (c * meanDb rs)) := hval.symm
      _ < 10.0 * Real.logb 10
            ((∑ i : Fin rs.length, Real.exp (c * p i)) / rs.length) := by
          have h10 : (0 : ℝ) < 10.0 := by norm_num
          exact (mul_lt_mul_left h10).mpr hlt
  exact ⟨(ne_of_lt hmain).symm, le_of_lt hmain⟩

/-- Witness for C8 at a concrete pair of trials with transmit powers 0 dB and
20 dB. -/
theorem linear_average_exceeds_db_average_witness :
    (⟨0, 0, 0, 0⟩ : DosimResult) ∈ [(⟨0, 0, 0, 0⟩ : DosimResult), ⟨0, 0, 0, 20⟩] ∧
    (⟨0, 0, 0, 20⟩ : DosimResult) ∈ [(⟨0, 0, 0, 0⟩ : DosimResult), ⟨0, 0, 0, 20⟩] ∧
    (DosimResult.pmax ⟨0, 0, 0, 0⟩ ≠ DosimResult.pmax ⟨0, 0, 0, 20⟩) ∧
    ((harnessStats 10 [⟨0, 0, 0, 0⟩, ⟨0, 0, 0, 20⟩]).2.2.2
        ≠ meanDb [⟨0, 0, 0, 0⟩, ⟨0, 0, 0, 20⟩] ∧
      meanDb [⟨0, 0, 0, 0⟩, ⟨0, 0, 0, 20⟩]
        ≤ (harnessStats 10 [⟨0, 0, 0, 0⟩, ⟨0, 0, 0, 20⟩]).2.2.2) :=
  ⟨List.mem_cons_self _ _, by simp, by norm_num,
   linear_average_exceeds_db_average 10 [⟨0, 0, 0, 0⟩, ⟨0, 0, 0, 20⟩]
     ⟨0, 0, 0, 0⟩ ⟨0, 0, 0, 20⟩ (List.mem_cons_self _ _) (by simp) (by norm_num)⟩

/-! ### Claim C10: the realized SIR -/

/-- C10: in every trial the realized SIR computed by `dosim` (line 98) equals
the true received primary power at the query location minus the average
interference bound minus the secondary shadowing draw `z` (the
`np.random.normal(0.0, STDEV_SU)` sample); the secondary path loss `l_su` added
on line 96 cancels exactly on line 98, so the realized SIR does not depend on
the interferer-to-receiver path loss. -/
theorem dosim_sir_independent_of_pathloss (erfinv : ℝ → ℝ)
    (sir_d_db pout prx_est kvar prx_true l_su l_su' z : ℝ) :
    (dosim erfinv sir_d_db pout prx_est kvar prx_true l_su z).sir
        = prx_true - imax_avg erfinv prx_est sir_d_db pout kvar STDEV_SU - z ∧
    (dosim erfinv sir_d_db pout prx_est kvar prx_true l_su z).sir
        = (dosim erfinv sir_d_db pout prx_est kvar prx_true l_su' z).sir := by
  constructor <;> (unfold dosim pmax_est; ring_nf)

/-! ### Entry lemmas for the kriging system -/

theorem distance_self (a b : ℝ) : distance a b a b = 0 := by
  simp [distance]

theorem semivar_exp_zero (nug sill ran : ℝ) :
    semivar_exp nug sill ran 0 = nug := by
  simp [semivar_exp]

theorem covOf_zero (nug sill ran : ℝ) : covOf nug sill ran 0 = sill := by
  rw [covOf, semivar_exp_zero]
  ring

theorem covOf_of_zero_params (ran h : ℝ) : covOf 0 0 ran h = 0 := by
  rw [covOf, semivar_exp]
  ring

theorem gen_mat_cc (n : ℕ) (x y : Fin n → ℝ) (nug sill ran : ℝ) (i j : Fin n) :
    gen_mat_for_kriging n x y nug sill ran i.castSucc j.castSucc
      = covOf nug sill ran (distance (x i) (y i) (x j) (y j)) := by
  simp [gen_mat_for_kriging, (Fin.castSucc_lt_last i).ne,
    (Fin.castSucc_lt_last j).ne]

theorem gen_mat_cl (n : ℕ) (x y : Fin n → ℝ) (nug sill ran : ℝ) (i : Fin n) :
    gen_mat_for_kriging n x y nug sill ran i.castSucc (Fin.last n) = 1 := by
  simp [gen_mat_for_kriging, (Fin.castSucc_lt_last i).ne]

theorem gen_mat_lc (n : ℕ) (x y : Fin n → ℝ) (nug sill ran : ℝ) (j : Fin n) :
    gen_mat_for_kriging n x y nug sill ran (Fin.last n) j.castSucc = 1 := by
  simp [gen_mat_for_kriging, (Fin.castSucc_lt_last j).ne]

theorem gen_mat_ll (n : ℕ) (x y : Fin n → ℝ) (nug sill ran : ℝ) :
    gen_mat_for_kriging n x y nug sill ran (Fin.last n) (Fin.last n) = 0 := by
  simp [gen_mat_for_kriging]

theorem kriging_rhs_c (n : ℕ) (x y : Fin n → ℝ) (nug sill ran xq yq : ℝ)
    (i : Fin n) :
    kriging_rhs n x y nug sill ran xq yq i.castSucc
      = covOf nug sill ran (distance (x i) (y i) xq yq) := by
  simp [kriging_rhs, (Fin.castSucc_lt_last i).ne]

theorem kriging_rhs_l (n : ℕ) (x y : Fin n → ℝ) (nug sill ran xq yq : ℝ) :
    kriging_rhs n x y nug sill ran xq yq (Fin.last n) = 1 := by
  simp [kriging_rhs]

theorem extendedCov_cc (n : ℕ) (x y : Fin n → ℝ) (nug sill ran xq yq : ℝ)
    (i j : Fin n) :
    extendedCov n x y nug sill ran xq yq i.castSucc j.castSucc
      = covOf nug sill ran (distance (x i) (y i) (x j) (y j)) := by
  simp [extendedCov, (Fin.castSucc_lt_last i).ne, (Fin.castSucc_lt_last j).ne,
    gen_mat_cc]

theorem extendedCov_cl (n : ℕ) (x y : Fin n → ℝ) (nug sill ran xq yq : ℝ)
    (i : Fin n) :
    extendedCov n x y nug sill ran xq yq i.castSucc (Fin.last n)
      = kriging_rhs n x y nug sill ran xq yq i.castSucc := by
  simp [extendedCov, (Fin.castSucc_lt_last i).ne]

theorem extendedCov_lc (n : ℕ) (x y : Fin n → ℝ) (nug sill ran xq yq : ℝ)
    (j : Fin n) :
    extendedCov n x y nug sill ran xq yq (Fin.last n) j.castSucc
      = kriging_rhs n x y nug sill ran xq yq j.castSucc := by
  simp [extendedCov, (Fin.castSucc_lt_last j).ne]

theorem extendedCov_ll (n : ℕ) (x y : Fin n → ℝ) (nug sill ran xq yq : ℝ) :
    extendedCov n x y nug sill ran xq yq (Fin.last n) (Fin.last n)
      = nug + sill := by
  simp [extendedCov]

/-! ### The solved kriging system -/

/-- For a non-singular matrix the kriging weight vector solves `M w = b`. -/
theorem kriging_weights_solve (n : ℕ) (x y : Fin n → ℝ) (nug sill ran xq yq : ℝ)
    (hdet : IsUnit (gen_mat_for_kriging n x y nug sill ran).det) :
    gen_mat_for_kriging n x y nug sill ran *ᵥ
        kriging_weights n x y nug sill ran xq yq
      = kriging_rhs n x y nug sill ran xq yq := by
  rw [kriging_weights, Matrix.mulVec_mulVec, Matrix.mul_nonsing_inv _ hdet,
    Matrix.one_mulVec]

/-- Uniqueness: any explicit solution of the system is the weight vector. -/
theorem kriging_weights_unique (n : ℕ) (x y : Fin n → ℝ)
    (nug sill ran xq yq : ℝ) (w0 : Fin (n + 1) → ℝ)
    (hdet : IsUnit (gen_mat_for_kriging n x y nug sill ran).det)
    (hw : gen_mat_for_kriging n x y nug sill ran *ᵥ w0
        = kriging_rhs n x y nug sill ran xq yq) :
    kriging_weights n x y nug sill ran xq yq = w0 := by
  rw [kriging_weights, ← hw, Matrix.mulVec_mulVec,
    Matrix.nonsing_inv_mul _ hdet, Matrix.one_mulVec]

/-- The last row of the solved bordered system: the first `n` kriging weights
sum to 1 (shared by several claims below). -/
theorem kriging_weights_sum_aux (n : ℕ) (x y : Fin n → ℝ)
    (nug sill ran xq yq : ℝ)
    (hdet : IsUnit (gen_mat_for_kriging n x y nug sill ran).det) :
    ∑ i : Fin n, kriging_weights n x y nug sill ran xq yq i.castSucc = 1 := by
  have h : ∑ j, gen_mat_for_kriging n x y nug sill ran (Fin.last n) j
      * kriging_weights n x y nug sill ran xq yq j
      = kriging_rhs n x y nug sill ran xq yq (Fin.last n) :=
    congrFun (kriging_weights_solve n x y nug sill ran xq yq hdet) (Fin.last n)
  rw [kriging_rhs_l, Fin.sum_univ_castSucc] at h
  simp only [gen_mat_lc, gen_mat_ll, one_mul, zero_mul, add_zero] at h
  exact h

/-! ### Claim C3: the kriging weights sum to one -/

/-- C3: for every non-singular input configuration, the weight vector obtained
by solving the bordered `(n+1)×(n+1)` kriging system has its first `n`
entries summing to 1. -/
theorem kriging_weights_sum_to_one (n : ℕ) (x y : Fin n → ℝ)
    (nug sill ran xq yq : ℝ)
    (hdet : IsUnit (gen_mat_for_kriging n x y nug sill ran).det) :
    ∑ i : Fin n, kriging_weights n x y nug sill ran xq yq i.castSucc = 1 :=
  kriging_weights_sum_aux n x y nug sill ran xq yq hdet

/-! ### The concrete one-sample system used by witnesses/counterexamples -/

/-- The concrete one-sample kriging matrix with nugget 1, sill 1, range 1:
its entries are `!![1, 1; 1, 0]`. -/
theorem gen_mat_one_sample_entries :
    gen_mat_for_kriging 1 zeroFin1 zeroFin1 1 1 1 0 0 = 1 ∧
    gen_mat_for_kriging 1 zeroFin1 zeroFin1 1 1 1 0 1 = 1 ∧
    gen_mat_for_kriging 1 zeroFin1 zeroFin1 1 1 1 1 0 = 1 ∧
    gen_mat_for_kriging 1 zeroFin1 zeroFin1 1 1 1 1 1 = 0 := by
  refine ⟨?_, ?_, ?_, ?_⟩
  · show gen_mat_for_kriging 1 zeroFin1 zeroFin1 1 1 1
      (Fin.castSucc 0) (Fin.castSucc 0) = 1
    rw [gen_mat_cc]
    simp [zeroFin1, distance_self, covOf_zero]
  · show gen_mat_for_kriging 1 zeroFin1 zeroFin1 1 1 1
      (Fin.castSucc 0) (Fin.last 1) = 1
    exact gen_mat_cl 1 zeroFin1 zeroFin1 1 1 1 0
  · show gen_mat_for_kriging 1 zeroFin1 zeroFin1 1 1 1
      (Fin.last 1) (Fin.castSucc 0) = 1
    exact gen_mat_lc 1 zeroFin1 zeroFin1 1 1 1 0
  · show gen_mat_for_kriging 1 zeroFin1 zeroFin1 1 1 1
      (Fin.last 1) (Fin.last 1) = 0
    exact gen_mat_ll 1 zeroFin1 zeroFin1 1 1 1

/-- The concrete one-sample kriging matrix is non-singular: `det = -1`. -/
theorem gen_mat_one_sample_det_isUnit :
    IsUnit (gen_mat_for_kriging 1 zeroFin1 zeroFin1 1 1 1).det := by
  obtain ⟨e00, e01, e10, e11⟩ := gen_mat_one_sample_entries
  rw [Matrix.det_fin_two, e00, e01, e10, e11]
  norm_num

/-- Witness for C3 at the concrete one-sample configuration. -/
theorem kriging_weights_sum_to_one_witness :
    IsUnit (gen_mat_for_kriging 1 zeroFin1 zeroFin1 1 1 1).det ∧
    ∑ i : Fin 1, kriging_weights 1 zeroFin1 zeroFin1 1 1 1 0 0 i.castSucc = 1 :=
  ⟨gen_mat_one_sample_det_isUnit,
   kriging_weights_sum_to_one 1 zeroFin1 zeroFin1 1 1 1 0 0
     gen_mat_one_sample_det_isUnit⟩

/-! ### Claim C2: interpolation exactness at a sample location -/

/-- When the query point coincides with training sample `j`, the indicator
vector of `j` solves the bordered kriging system. -/
theorem indicator_solves (n : ℕ) (x y : Fin n → ℝ) (nug sill ran : ℝ)
    (j : Fin n) :
    gen_mat_for_kriging n x y nug sill ran *ᵥ
        (fun k => if k = j.castSucc then 1 else 0)
      = kriging_rhs n x y nug sill ran (x j) (y j) := by
  funext i
  have hmul : (gen_mat_for_kriging n x y nug sill ran *ᵥ
      (fun k => if k = j.castSucc then 1 else 0)) i
      = ∑ k, gen_mat_for_kriging n x y nug sill ran i k
          * (if k = j.castSucc then (1 : ℝ) else 0) := rfl
  rw [hmul]
  have hsum : ∑ k, gen_mat_for_kriging n x y nug sill ran i k
      * (if k = j.castSucc then (1 : ℝ) else 0)
      = gen_mat_for_kriging n x y nug sill ran i j.castSucc := by
    simp [mul_ite]
  rw [hsum]
  induction i using Fin.lastCases with
  | last => rw [gen_mat_lc, kriging_rhs_l]
  | cast i => rw [gen_mat_cc, kriging_rhs_c]

/-- C2 (amended): for every trained model and non-singular configuration, if
the query location coincides with training sample `j` then the
ordinary-kriging estimate equals that sample's value, and the kriging variance
equals the model's nugget — not 0 (the two agree exactly when the nugget is
0).  With the spec's model contract `γ(0) = nugget` (section 3), the variance
of section 4.3 step 5 evaluates at a coincident query to
`(nugget+sill) − C(0) = nugget`. -/
theorem ordinary_kriging_exact_at_sample (n : ℕ) (x y v : Fin n → ℝ)
    (nug sill ran : ℝ) (j : Fin n)
    (hdet : IsUnit (gen_mat_for_kriging n x y nug sill ran).det) :
    (ordinary_kriging n x y v (x j) (y j) nug sill ran).1 = v j ∧
    (ordinary_kriging n x y v (x j) (y j) nug sill ran).2 = nug := by
  have hw : kriging_weights n x y nug sill ran (x j) (y j)
      = fun k => if k = j.castSucc then 1 else 0 :=
    kriging_weights_unique n x y nug sill ran (x j) (y j) _ hdet
      (indicator_solves n x y nug sill ran j)
  constructor
  · simp only [ordinary_kriging]
    rw [hw]
    simp [Fin.castSucc_inj, ite_mul]
  · simp only [ordinary_kriging]
    rw [hw]
    have hlast : (if Fin.last n = j.castSucc then (1 : ℝ) else 0) = 0 :=
      if_neg (Fin.castSucc_lt_last j).ne'
    have hsum : ∑ i : Fin n, (if i.castSucc = j.castSucc then (1 : ℝ) else 0)
        * kriging_rhs n x y nug sill ran (x j) (y j) i.castSucc
        = kriging_rhs n x y nug sill ran (x j) (y j) j.castSucc := by
      simp [Fin.castSucc_inj, ite_mul]
    rw [hsum]
    show nug + sill - kriging_rhs n x y nug sill ran (x j) (y j) j.castSucc
        - (if Fin.last n = j.castSucc then (1 : ℝ) else 0) = nug
    rw [hlast, kriging_rhs_c, distance_self, covOf_zero]
    ring

/-- The concrete right-hand vector of the one-sample system with the query at
the sample location. -/
theorem kriging_rhs_one_sample :
    kriging_rhs 1 zeroFin1 zeroFin1 1 1 1 0 0 0 = 1 ∧
    kriging_rhs 1 zeroFin1 zeroFin1 1 1 1 0 0 1 = 1 := by
  constructor
  · show kriging_rhs 1 zeroFin1 zeroFin1 1 1 1 0 0 (Fin.castSucc 0) = 1
    rw [kriging_rhs_c]
    simp [zeroFin1, distance_self, covOf_zero]
  · show kriging_rhs 1 zeroFin1 zeroFin1 1 1 1 0 0 (Fin.last 1) = 1
    exact kriging_rhs_l 1 zeroFin1 zeroFin1 1 1 1 0 0

/-- The solved weight vector of the concrete one-sample system. -/
theorem kriging_weights_one_sample :
    kriging_weights 1 zeroFin1 zeroFin1 1 1 1 0 0 = ![1, 0] := by
  obtain ⟨e00, e01, e10, e11⟩ := gen_mat_one_sample_entries
  obtain ⟨b0, b1⟩ := kriging_rhs_one_sample
  refine kriging_weights_unique 1 zeroFin1 zeroFin1 1 1 1 0 0 ![1, 0]
    gen_mat_one_sample_det_isUnit ?_
  funext i
  fin_cases i
  · show ∑ k, gen_mat_for_kriging 1 zeroFin1 zeroFin1 1 1 1 0 k * ![1, 0] k
      = kriging_rhs 1 zeroFin1 zeroFin1 1 1 1 0 0 0
    rw [Fin.sum_univ_two, e00, e01, b0]
    norm_num
  · show ∑ k, gen_mat_for_kriging 1 zeroFin1 zeroFin1 1 1 1 1 k * ![1, 0] k
      = kriging_rhs 1 zeroFin1 zeroFin1 1 1 1 0 0 1
    rw [Fin.sum_univ_two, e10, e11, b1]
    norm_num

/-- The concrete ordinary-kriging output of the one-sample system with nugget
1: estimate 5 (the sample's value), variance 1 (the nugget). -/
theorem ordinary_kriging_one_sample_value :
    ordinary_kriging 1 zeroFin1 zeroFin1 valFin1 0 0 1 1 1 = (5, 1) := by
  obtain ⟨b0, b1⟩ := kriging_rhs_one_sample
  rw [ordinary_kriging, kriging_weights_one_sample, Prod.mk.injEq]
  constructor
  · rw [Fin.sum_univ_one]
    show (1 : ℝ) * valFin1 0 = 5
    norm_num [valFin1]
  · rw [Fin.sum_univ_one]
    show (1 : ℝ) + 1 - (1 : ℝ) * kriging_rhs 1 zeroFin1 zeroFin1 1 1 1 0 0 0
        - (0 : ℝ) = 1
    rw [b0]
    norm_num

/-- Counterexample to C2 as stated: in the one-sample configuration with
nugget 1, sill 1, range 1, sample at the origin with value 5, and the query
placed exactly at the sample, the system is non-singular and the estimate
equals the sample's value, but the kriging variance is 1 (the nugget), not
0. -/
theorem kriging_exactness_counterexample :
    IsUnit (gen_mat_for_kriging 1 zeroFin1 zeroFin1 1 1 1).det ∧
    (ordinary_kriging 1 zeroFin1 zeroFin1 valFin1
        (zeroFin1 0) (zeroFin1 0) 1 1 1).1 = valFin1 0 ∧
    (ordinary_kriging 1 zeroFin1 zeroFin1 valFin1
        (zeroFin1 0) (zeroFin1 0) 1 1 1).2 ≠ 0 := by
  refine ⟨gen_mat_one_sample_det_isUnit, ?_, ?_⟩
  · show (ordinary_kriging 1 zeroFin1 zeroFin1 valFin1 0 0 1 1 1).1 = valFin1 0
    rw [ordinary_kriging_one_sample_value]
    show (5 : ℝ) = valFin1 0
    norm_num [valFin1]
  · show (ordinary_kriging 1 zeroFin1 zeroFin1 valFin1 0 0 1 1 1).2 ≠ 0
    rw [ordinary_kriging_one_sample_value]
    norm_num

/-- Witness for C2's amended theorem at the concrete one-sample system. -/
theorem ordinary_kriging_exact_at_sample_witness :
    IsUnit (gen_mat_for_kriging 1 zeroFin1 zeroFin1 1 1 1).det ∧
    ((ordinary_kriging 1 zeroFin1 zeroFin1 valFin1
        (zeroFin1 0) (zeroFin1 0) 1 1 1).1 = valFin1 0 ∧
      (ordinary_kriging 1 zeroFin1 zeroFin1 valFin1
        (zeroFin1 0) (zeroFin1 0) 1 1 1).2 = 1) :=
  ⟨gen_mat_one_sample_det_isUnit,
   ordinary_kriging_exact_at_sample 1 zeroFin1 zeroFin1 valFin1 1 1 1 0
     gen_mat_one_sample_det_isUnit⟩

/-! ### Claim C9: insufficient data for the semivariogram estimator -/

/-- C9: for every training set with fewer than 2 samples, the semivariogram
estimator fails with `InsufficientDataError` rather than returning an
empirical semivariogram. -/
theorem gen_emprical_semivar_insufficient (n : ℕ) (x y v : Fin n → ℝ)
    (dmax : ℝ) (nb : ℕ) (h : n < 2) :
    gen_emprical_semivar n x y v dmax nb
      = Except.error KrigingError.insufficientData := by
  rw [gen_emprical_semivar, if_pos h]

/-- Witness for C9 with a single-sample training set. -/
theorem gen_emprical_semivar_insufficient_witness :
    1 < 2 ∧
    gen_emprical_semivar 1 zeroFin1 zeroFin1 valFin1 D_MAX N_SEMIVAR
      = Except.error KrigingError.insufficientData :=
  ⟨by norm_num,
   gen_emprical_semivar_insufficient 1 zeroFin1 zeroFin1 valFin1 D_MAX
     N_SEMIVAR (by norm_num)⟩

/-! ### Claim C7: non-negativity of the pipeline's outputs -/

/-- Every empirical semivariance is non-negative (shared helper): each bin
value is a sum of halved squares divided by a count. -/
theorem semivar_points_nonneg (n : ℕ) (x y v : Fin n → ℝ) (dmax : ℝ)
    (nb : ℕ) :
    ∀ pt ∈ gen_emprical_semivar_points n x y v dmax nb, 0 ≤ pt.2 := by
  intro pt hpt
  rw [gen_emprical_semivar_points] at hpt
  simp only [List.mem_map, List.mem_filter] at hpt
  obtain ⟨k, _, hk⟩ := hpt
  rw [← hk]
  show 0 ≤ semivarBinValue n x y v dmax nb k
  rw [semivarBinValue]
  apply div_nonneg
  · apply Finset.sum_nonneg
    intro q _
    positivity
  · positivity

/-- The least-squares objective is a sum of squares, hence non-negative
(shared helper). -/
theorem ssr_nonneg (pts : List (ℝ × ℝ)) (nug sill ran : ℝ) :
    0 ≤ ssr pts nug sill ran := by
  rw [ssr]
  apply List.sum_nonneg
  intro a ha
  simp only [List.mem_map] at ha
  obtain ⟨q, _, hq⟩ := ha
  rw [← hq]
  positivity

/-- Under a positive-semidefinite extended covariance matrix, the kriging
variance of a non-singular system is non-negative: it equals the quadratic
form of the extended matrix at the vector `(-w, 1)` (shared helper). -/
theorem kriging_variance_nonneg_aux (n : ℕ) (x y v : Fin n → ℝ)
    (nug sill ran xq yq : ℝ)
    (hdet : IsUnit (gen_mat_for_kriging n x y nug sill ran).det)
    (hpsd : ∀ u, 0 ≤ quadForm (n + 1) (extendedCov n x y nug sill ran xq yq) u) :
    0 ≤ (ordinary_kriging n x y v xq yq nug sill ran).2 := by
  set w := kriging_weights n x y nug sill ran xq yq with hwdef
  set b := kriging_rhs n x y nug sill ran xq yq with hbdef
  have hs : gen_mat_for_kriging n x y nug sill ran *ᵥ w = b :=
    kriging_weights_solve n x y nug sill ran xq yq hdet
  have E1 : ∀ i : Fin n,
      (∑ j : Fin n, covOf nug sill ran (distance (x i) (y i) (x j) (y j))
          * w j.castSucc) + w (Fin.last n) = b i.castSucc := by
    intro i
    have h : ∑ k, gen_mat_for_kriging n x y nug sill ran i.castSucc k * w k
        = b i.castSucc := congrFun hs i.castSucc
    rw [Fin.sum_univ_castSucc] at h
    simp only [gen_mat_cc, gen_mat_cl, one_mul] at h
    exact h
  have E2 : ∑ i : Fin n, w i.castSucc = 1 :=
    kriging_weights_sum_aux n x y nug sill ran xq yq hdet
  set u : Fin (n + 1) → ℝ := fun k => if k = Fin.last n then 1 else -(w k)
    with hudef
  have hu_c : ∀ i : Fin n, u i.castSucc = -(w i.castSucc) := fun i =>
    if_neg (Fin.castSucc_lt_last i).ne
  have hu_l : u (Fin.last n) = 1 := if_pos rfl
  have hquad : quadForm (n + 1) (extendedCov n x y nug sill ran xq yq) u
      = nug + sill - (∑ i : Fin n, w i.castSucc * b i.castSucc)
          - w (Fin.last n) := by
    rw [quadForm, Fin.sum_univ_castSucc]
    have hrow : ∀ i : Fin n,
        ∑ j, extendedCov n x y nug sill ran xq yq i.castSucc j
            * u i.castSucc * u j
          = -(w i.castSucc * w (Fin.last n)) := by
      intro i
      rw [Fin.sum_univ_castSucc]
      have hterm : ∀ j : Fin n,
          extendedCov n x y nug sill ran xq yq i.castSucc j.castSucc
              * u i.castSucc * u j.castSucc
            = covOf nug sill ran (distance (x i) (y i) (x j) (y j))
                * w j.castSucc * w i.castSucc := by
        intro j
        rw [extendedCov_cc, hu_c, hu_c]
        ring
      rw [Finset.sum_congr rfl (fun j _ => hterm j), extendedCov_cl, hu_c,
        hu_l]
      have hfac : ∑ j : Fin n,
          covOf nug sill ran (distance (x i) (y i) (x j) (y j))
            * w j.castSucc * w i.castSucc
          = (∑ j : Fin n,
              covOf nug sill ran (distance (x i) (y i) (x j) (y j))
                * w j.castSucc) * w i.castSucc := by
        rw [Finset.sum_mul]
      rw [hfac]
      have h1 : (∑ j : Fin n,
          covOf nug sill ran (distance (x i) (y i) (x j) (y j))
            * w j.castSucc) = b i.castSucc - w (Fin.last n) := by
        have h2 := E1 i
        linarith
      rw [h1]
      ring
    have hlastrow : ∑ j, extendedCov n x y nug sill ran xq yq (Fin.last n) j
        * u (Fin.last n) * u j
        = -(∑ j : Fin n, w j.castSucc * b j.castSucc) + (nug + sill) := by
      rw [Fin.sum_univ_castSucc]
      have hterm : ∀ j : Fin n,
          extendedCov n x y nug sill ran xq yq (Fin.last n) j.castSucc
              * u (Fin.last n) * u j.castSucc
            = -(w j.castSucc * b j.castSucc) := by
        intro j
        rw [extendedCov_lc, hu_l, hu_c]
        ring
      rw [Finset.sum_congr rfl (fun j _ => hterm j), extendedCov_ll, hu_l,
        Finset.sum_neg_distrib]
      ring
    rw [Finset.sum_congr rfl (fun i _ => hrow i), hlastrow,
      Finset.sum_neg_distrib, ← Finset.sum_mul, E2]
    ring
  have hgoal : (ordinary_kriging n x y v xq yq nug sill ran).2
      = nug + sill - (∑ i : Fin n, w i.castSucc * b i.castSucc)
          - w (Fin.last n) := rfl
  rw [hgoal, ← hquad]
  exact hpsd u

/-- C7: for every valid input, all semivariance values produced by the
semivariogram estimator are ≥ 0, the fitted nugget and fitted sill are ≥ 0,
and — for a non-singular kriging system whose extended covariance matrix is
positive semidefinite (what "valid input" means for the covariance model) —
the kriging variance returned by the solver is ≥ 0. -/
theorem pipeline_outputs_nonneg
    (m : ℕ) (xd yd vd : Fin m → ℝ) (dmax : ℝ) (nb : ℕ)
    (pts : List (ℝ × ℝ)) (nug sill ran : ℝ)
    (hfit : IsFitSemivarResult pts nug sill ran)
    (n : ℕ) (x y v : Fin n → ℝ) (xq yq : ℝ)
    (hdet : IsUnit (gen_mat_for_kriging n x y nug sill ran).det)
    (hpsd : ∀ u, 0 ≤ quadForm (n + 1) (extendedCov n x y nug sill ran xq yq) u) :
    (∀ pt ∈ gen_emprical_semivar_points m xd yd vd dmax nb, 0 ≤ pt.2) ∧
    0 ≤ nug ∧ 0 ≤ sill ∧
    0 ≤ (ordinary_kriging n x y v xq yq nug sill ran).2 :=
  ⟨semivar_points_nonneg m xd yd vd dmax nb, hfit.1, hfit.2.1,
   kriging_variance_nonneg_aux n x y v nug sill ran xq yq hdet hpsd⟩

/-- The all-zero model is a constrained least-squares fit of the concrete
empirical semivariogram `pts3` (its residuals vanish). -/
theorem fit_pts3 : IsFitSemivarResult pts3 0 0 1 := by
  refine ⟨le_refl 0, le_refl 0, one_pos, ?_⟩
  intro nug' sill' ran' _ _ _
  have h0 : ssr pts3 0 0 1 = 0 := by
    simp [ssr, pts3, semivar_exp]
  rw [h0]
  exact ssr_nonneg pts3 nug' sill' ran'

/-- The one-sample kriging matrix of the degenerate all-zero model is
non-singular. -/
theorem gen_mat_degenerate_det_isUnit :
    IsUnit (gen_mat_for_kriging 1 zeroFin1 zeroFin1 0 0 1).det := by
  have e00 : gen_mat_for_kriging 1 zeroFin1 zeroFin1 0 0 1 0 0 = 0 := by
    show gen_mat_for_kriging 1 zeroFin1 zeroFin1 0 0 1
      (Fin.castSucc 0) (Fin.castSucc 0) = 0
    rw [gen_mat_cc, covOf_of_zero_params]
  have e01 : gen_mat_for_kriging 1 zeroFin1 zeroFin1 0 0 1 0 1 = 1 := by
    show gen_mat_for_kriging 1 zeroFin1 zeroFin1 0 0 1
      (Fin.castSucc 0) (Fin.last 1) = 1
    exact gen_mat_cl 1 zeroFin1 zeroFin1 0 0 1 0
  have e10 : gen_mat_for_kriging 1 zeroFin1 zeroFin1 0 0 1 1 0 = 1 := by
    show gen_mat_for_kriging 1 zeroFin1 zeroFin1 0 0 1
      (Fin.last 1) (Fin.castSucc 0) = 1
    exact gen_mat_lc 1 zeroFin1 zeroFin1 0 0 1 0
  have e11 : gen_mat_for_kriging 1 zeroFin1 zeroFin1 0 0 1 1 1 = 0 := by
    show gen_mat_for_kriging 1 zeroFin1 zeroFin1 0 0 1
      (Fin.last 1) (Fin.last 1) = 0
    exact gen_mat_ll 1 zeroFin1 zeroFin1 0 0 1
  rw [Matrix.det_fin_two, e00, e01, e10, e11]
  norm_num

/-- The extended covariance matrix of the degenerate all-zero model vanishes
identically, so its quadratic form is 0 everywhere — positive semidefinite. -/
theorem extendedCov_degenerate_psd :
    ∀ u, 0 ≤ quadForm 2 (extendedCov 1 zeroFin1 zeroFin1 0 0 1 0 0) u := by
  have hentry : ∀ i j, extendedCov 1 zeroFin1 zeroFin1 0 0 1 0 0 i j = 0 := by
    intro i j
    induction i using Fin.lastCases with
    | last =>
        induction j using Fin.lastCases with
        | last =>
            rw [extendedCov_ll]
            norm_num
        | cast j =>
            rw [extendedCov_lc, kriging_rhs_c, covOf_of_zero_params]
    | cast i =>
        induction j using Fin.lastCases with
        | last =>
            rw [extendedCov_cl, kriging_rhs_c, covOf_of_zero_params]
        | cast j =>
            rw [extendedCov_cc, covOf_of_zero_params]
  intro u
  rw [quadForm]
  apply le_of_eq
  symm
  apply Finset.sum_eq_zero
  intro i _
  apply Finset.sum_eq_zero
  intro j _
  rw [hentry i j, zero_mul, zero_mul]

/-- Witness for C7 at a concrete configuration: two samples for the
estimator, the exactly-fitting all-zero model on `pts3`, and the degenerate
one-sample kriging system with the query at the origin. -/
theorem pipeline_outputs_nonneg_witness :
    IsFitSemivarResult pts3 0 0 1 ∧
    IsUnit (gen_mat_for_kriging 1 zeroFin1 zeroFin1 0 0 1).det ∧
    ((∀ pt ∈ gen_emprical_semivar_points 2 zeroFin2 zeroFin2 zeroFin2
        D_MAX N_SEMIVAR, 0 ≤ pt.2) ∧
      0 ≤ (0 : ℝ) ∧ 0 ≤ (0 : ℝ) ∧
      0 ≤ (ordinary_kriging 1 zeroFin1 zeroFin1 valFin1 0 0 0 0 1).2) :=
  ⟨fit_pts3, gen_mat_degenerate_det_isUnit,
   pipeline_outputs_nonneg 2 zeroFin2 zeroFin2 zeroFin2 D_MAX N_SEMIVAR
     pts3 0 0 1 fit_pts3 1 zeroFin1 zeroFin1 valFin1 0 0
     gen_mat_degenerate_det_isUnit extendedCov_degenerate_psd⟩

end KrigingSim
